import Mathlib

/-!
Shallow embedding of the quote-and-payment lifecycle of the Expert Polyhomes
backend (src/backend/server.js): the pricing calculator, the phone
validator/normalizer of the M-Pesa payment route, and the state machine formed
by the quote/payment tables together with the HTTP operations that mutate them.

Monetary amounts and window dimensions are `DECIMAL` columns and JS numbers in
the source; they are modelled as rationals (`ℚ`).  Row ids are `SERIAL`
columns, modelled as naturals handed out by a counter starting at 1.  The
`setTimeout` completion callback of `POST /api/mpesa/payment` is modelled as a
pending timer record that a separate `fireTimer` transition consumes; the two
SQL `UPDATE`s it performs run inside one `BEGIN`/`COMMIT`, so the transition
performs both in a single atomic step.
-/

namespace Polyhomes

/-- The `priceMatrix` literal of `POST /api/quotes` (server.js lines 286-291):
a fixed table keyed by mesh type and material type. -/
def priceMatrixLookup (meshType materialType : String) : Option ℚ :=
  match meshType with
  | "fixed" =>
    match materialType with
    | "fiberglass" => some 1500
    | "polyester" => some 1800
    | "stainless" => some 2200
    | _ => none
  | "roller" =>
    match materialType with
    | "fiberglass" => some 2800
    | "polyester" => some 3200
    | "stainless" => some 4500
    | _ => none
  | "slider" =>
    match materialType with
    | "fiberglass" => some 2600
    | "polyester" => some 3000
    | "stainless" => some 4200
    | _ => none
  | "magnetic" =>
    match materialType with
    | "fiberglass" => some 1800
    | "polyester" => some 2000
    | "stainless" => some 2500
    | _ => none
  | _ => none

/-- The lookup `priceMatrix[meshType]?.[materialType] || 2000` (server.js line 294): a
missing combination, or a falsy (zero) table entry, falls back to 2000. -/
def unitPrice (meshType materialType : String) : ℚ :=
  match priceMatrixLookup meshType materialType with
  | some v => if v = 0 then 2000 else v
  | none => 2000

/-- The computation `area = windowWidth * windowHeight` followed by
`totalPrice = area * unitPrice * windowCount` (server.js lines 293-295). -/
def computeTotalPrice (windowWidth windowHeight windowCount : ℚ)
    (meshType materialType : String) : ℚ :=
  (windowWidth * windowHeight) * unitPrice meshType materialType * windowCount

/-- The alternatives of the phone regex of `POST /api/mpesa/payment`
(server.js line 473), on the character sequence of the input:
`2547\d{8}`, `07\d{8}`, or `\+2547\d{8}`, anchored at both ends. -/
def validPhoneChars : List Char → Bool
  | '2' :: '5' :: '4' :: '7' :: rest => rest.length == 8 && rest.all Char.isDigit
  | '0' :: '7' :: rest => rest.length == 8 && rest.all Char.isDigit
  | '+' :: '2' :: '5' :: '4' :: '7' :: rest => rest.length == 8 && rest.all Char.isDigit
  | _ => false

/-- The phone regex check `phone.match(/^(2547\d{8}|07\d{8}|\+2547\d{8})$/)`
(server.js line 473), applied to the raw request field. -/
def validPhone (s : String) : Bool :=
  validPhoneChars s.toList

/-- Whitespace characters matched by the JS `\s` class that can appear in a
single-line string (space, tab, line feed, vertical tab, form feed, carriage
return). -/
def isJsSpace (c : Char) : Bool :=
  c = ' ' || c = '\t' || c = '\n' || c = '\x0b' || c = '\x0c' || c = '\r'

/-- The prefix rewriting of the phone formatting (server.js lines 480-484):
a leading `0` becomes `254`; otherwise a leading `+254` loses its `+`. -/
def formatChars : List Char → List Char
  | '0' :: rest => '2' :: '5' :: '4' :: rest
  | '+' :: '2' :: '5' :: '4' :: rest => '2' :: '5' :: '4' :: rest
  | cs => cs

/-- Phone formatting of `POST /api/mpesa/payment` (server.js lines 479-484):
`phone.replace(/\s/g, '')`, then the prefix rewriting of `formatChars`. -/
def formatPhone (s : String) : String :=
  String.mk (formatChars (s.toList.filter (fun c => !(isJsSpace c))))

/-- The identity carried by a verified JWT: `req.user.userId` and
`req.user.role` (server.js lines 104-127). -/
structure Auth where
  userId : Nat
  role : String
deriving DecidableEq, Repr

/-- A row of the `quotes` table (server.js lines 49-64); `status` defaults to
`"pending"` on insertion. -/
structure Quote where
  id : Nat
  user_id : Nat
  window_width : ℚ
  window_height : ℚ
  window_count : ℚ
  mesh_type : String
  material_type : String
  total_price : ℚ
  status : String
  install_location : String
deriving DecidableEq, Repr

/-- A row of the `payments` table (server.js lines 67-78). -/
structure Payment where
  id : Nat
  user_id : Nat
  quote_id : Nat
  amount : ℚ
  phone : String
  mpesa_code : Option String
  status : String
deriving DecidableEq, Repr

/-- A scheduled `setTimeout` completion callback of `POST /api/mpesa/payment`
(server.js lines 515-544), closing over the created payment's id and the
quote id of the request. -/
structure TimerTask where
  paymentId : Nat
  quoteId : Nat
deriving DecidableEq, Repr

/-- The persistent store: the two lifecycle tables, the set of not-yet-fired
completion callbacks, and the `SERIAL` id counters. -/
structure DB where
  quotes : List Quote
  payments : List Payment
  timers : List TimerTask
  nextQuoteId : Nat
  nextPaymentId : Nat
deriving DecidableEq, Repr

/-- The store right after `initializeDatabase`: empty tables, `SERIAL`
counters at 1. -/
def DB.empty : DB := ⟨[], [], [], 1, 1⟩

/-- Error responses of the lifecycle routes: 400 invalid phone format,
404 not found, 403 access denied. -/
inductive ApiError where
  | invalidPhone
  | notFound
  | forbidden
deriving DecidableEq, Repr

/-- The request body of `POST /api/quotes` (server.js lines 280-313). -/
structure QuoteForm where
  windowWidth : ℚ
  windowHeight : ℚ
  windowCount : ℚ
  meshType : String
  materialType : String
  installLocation : String
deriving DecidableEq, Repr

/-- Route `POST /api/quotes` (server.js lines 280-336): computes the total price and
inserts a quote with default status `"pending"`; returns the new quote id and
the total price.  No error path short of a storage failure. -/
def submitQuote (auth : Auth) (f : QuoteForm) (db : DB) : DB × Nat × ℚ :=
  let total := computeTotalPrice f.windowWidth f.windowHeight f.windowCount
      f.meshType f.materialType
  let q : Quote :=
    { id := db.nextQuoteId
      user_id := auth.userId
      window_width := f.windowWidth
      window_height := f.windowHeight
      window_count := f.windowCount
      mesh_type := f.meshType
      material_type := f.materialType
      total_price := total
      status := "pending"
      install_location := f.installLocation }
  ({ db with quotes := db.quotes ++ [q], nextQuoteId := db.nextQuoteId + 1 },
    q.id, total)

/-- Route `PATCH /api/admin/quotes/:id` (server.js lines 428-463), behind
`authenticateToken` and `requireAdmin`: sets the status of the addressed
quote, 404 when no row matches. -/
def setQuoteStatus (auth : Auth) (quoteId : Nat) (status : String) (db : DB) :
    Except ApiError (DB × Quote) :=
  if auth.role ≠ "admin" then .error .forbidden
  else
    match db.quotes.find? (fun q => q.id == quoteId) with
    | none => .error .notFound
    | some q =>
      (.ok
        ({ db with
            quotes := db.quotes.map
              (fun r => if r.id == quoteId then { r with status := status } else r) },
          { q with status := status }))

/-- Route `POST /api/mpesa/payment` (server.js lines 466-559), up to the `COMMIT` of
the initiating request: phone regex check, phone formatting, quote existence
check, ownership-or-admin check, insertion of a payment with status
`"initiated"`, and scheduling of the delayed completion callback.  Returns the
created payment's id. -/
def initiatePayment (auth : Auth) (phone : String) (amount : ℚ) (quoteId : Nat)
    (db : DB) : Except ApiError (DB × Nat) :=
  if validPhone phone = false then .error .invalidPhone
  else
    let formattedPhone := formatPhone phone
    match db.quotes.find? (fun q => q.id == quoteId) with
    | none => .error .notFound
    | some q =>
      if q.user_id ≠ auth.userId ∧ auth.role ≠ "admin" then .error .forbidden
      else
        let p : Payment :=
          { id := db.nextPaymentId
            user_id := auth.userId
            quote_id := quoteId
            amount := amount
            phone := formattedPhone
            mpesa_code := none
            status := "initiated" }
        (.ok
          ({ db with
              payments := db.payments ++ [p]
              timers := db.timers ++ [⟨p.id, quoteId⟩]
              nextPaymentId := db.nextPaymentId + 1 },
            p.id))

/-- The body of the `setTimeout` callback (server.js lines 515-544): one
transaction setting the payment to `"completed"` with confirmation code
`'MPE' + Date.now()` and the linked quote to `"paid"`.  `ts` stands for the
`Date.now()` digits. -/
def fireCompletion (t : TimerTask) (ts : String) (db : DB) : DB :=
  { db with
      payments := db.payments.map
        (fun p =>
          if p.id == t.paymentId then
            { p with status := "completed", mpesa_code := some ("MPE" ++ ts) }
          else p)
      quotes := db.quotes.map
        (fun q => if q.id == t.quoteId then { q with status := "paid" } else q) }

/-- The response body of `GET /api/payment-status/:paymentId`
(server.js lines 580-585), minus the timestamp. -/
structure PaymentStatusView where
  status : String
  mpesaCode : Option String
  amount : ℚ
deriving DecidableEq, Repr

/-- Route `GET /api/payment-status/:paymentId` (server.js lines 562-590): 404 when
the payment does not exist, 403 unless the caller owns it or is admin,
otherwise the payment's current status, confirmation code and amount. -/
def getPaymentStatus (auth : Auth) (paymentId : Nat) (db : DB) :
    Except ApiError PaymentStatusView :=
  match db.payments.find? (fun p => p.id == paymentId) with
  | none => .error .notFound
  | some p =>
    if p.user_id ≠ auth.userId ∧ auth.role ≠ "admin" then .error .forbidden
    else .ok ⟨p.status, p.mpesa_code, p.amount⟩

/-- The operations of the system that touch the quote/payment store, plus the
status read.  `fireTimer k ts` fires the `k`-th scheduled completion callback
with `Date.now()` digits `ts`; reads leave the store unchanged.  The remaining
routes of server.js — register, login, profile, contact, service-check,
verify-token, and the admin list/stats reads — only touch the users and
contact-messages tables or perform `SELECT`s, never an `INSERT` or `UPDATE`
on quotes or payments, so they are omitted or represented by the read
operation. -/
inductive Op where
  | submitQuote (auth : Auth) (form : QuoteForm)
  | setStatus (auth : Auth) (quoteId : Nat) (status : String)
  | initiatePayment (auth : Auth) (phone : String) (amount : ℚ) (quoteId : Nat)
  | fireTimer (k : Nat) (ts : String)
  | getStatus (auth : Auth) (paymentId : Nat)

/-- One step of the store: the state change performed by each operation; a
rejected request (error response) rolls its transaction back and leaves the
store unchanged. -/
def applyOp (db : DB) : Op → DB
  | .submitQuote a f => (submitQuote a f db).1
  | .setStatus a i s =>
    match setQuoteStatus a i s db with
    | .ok (db2, _) => db2
    | .error _ => db
  | .initiatePayment a ph amt qid =>
    match initiatePayment a ph amt qid db with
    | .ok (db2, _) => db2
    | .error _ => db
  | .fireTimer k ts =>
    match db.timers.get? k with
    | some t => { fireCompletion t ts db with timers := db.timers.eraseIdx k }
    | none => db
  | .getStatus _ _ => db

/-- States reachable from the freshly initialized store by system
operations. -/
inductive Reachable : DB → Prop where
  | init : Reachable DB.empty
  | step (db : DB) (op : Op) : Reachable db → Reachable (applyOp db op)

/-- The status of the first quote row with the given id, as a `SELECT` of the
status column would report it. -/
def quoteStatus (db : DB) (quoteId : Nat) : Option String :=
  (db.quotes.find? (fun q => q.id == quoteId)).map (fun q => q.status)

deriving instance DecidableEq for Except

/-! ### Concrete sample data used by witnesses and counterexamples -/

/-- A sample authenticated non-admin user, id 1. -/
def sampleUser : Auth := ⟨1, "user"⟩

/-- A second sample non-admin user, id 2. -/
def otherUser : Auth := ⟨2, "user"⟩

/-- A sample admin, id 7. -/
def sampleAdmin : Auth := ⟨7, "admin"⟩

/-- The quote form of the spec's end-to-end example: 1.2 m by 1.5 m, two
windows, roller mesh, polyester material. -/
def sampleForm : QuoteForm := ⟨1.2, 1.5, 2, "roller", "polyester", "Nairobi"⟩

/-- Store after `sampleUser` submits `sampleForm`: one quote, id 1,
status pending. -/
def dbOneQuote : DB := applyOp DB.empty (.submitQuote sampleUser sampleForm)

/-- Store after `sampleUser` additionally initiates a payment of 5760 on
quote 1 with phone `"0712345678"`: payment 1 initiated, one pending timer. -/
def dbOnePayment : DB :=
  applyOp dbOneQuote (.initiatePayment sampleUser "0712345678" 5760 1)

/-! ### Generic list helper lemmas -/

/-- Finding by an id-based predicate commutes with mapping an id-preserving
function. -/
theorem find_map_pres {α : Type} (f : α → α) (key : α → Nat)
    (hf : ∀ a, key (f a) = key a) (l : List α) (i : Nat) :
    (l.map f).find? (fun a => key a == i) = (l.find? (fun a => key a == i)).map f := by
  induction l with
  | nil => rfl
  | cons a l ih =>
    cases hkey : (key a == i) with
    | true => simp [List.find?, hf, hkey]
    | false => simp [List.find?, hf, hkey, ih]

/-- In a list with pairwise-distinct keys, `find?` by the key of a member
returns that member. -/
theorem find_eq_of_mem_of_distinct {α : Type} (key : α → Nat) :
    ∀ (l : List α), l.Pairwise (fun a b => key a ≠ key b) →
      ∀ x ∈ l, l.find? (fun a => key a == key x) = some x := by
  intro l
  induction l with
  | nil => intro _ x hx; cases hx
  | cons a l ih =>
    intro hp x hx
    rcases List.mem_cons.mp hx with rfl | hx2
    · simp [List.find?]
    · have hne : key a ≠ key x := (List.pairwise_cons.mp hp).1 x hx2
      have : (key a == key x) = false := by simpa using hne
      simp [List.find?, this, ih (List.pairwise_cons.mp hp).2 x hx2]

/-- Finding skips a prefix on which the predicate is everywhere false. -/
theorem find_append_skip {α : Type} (p : α → Bool) :
    ∀ (l₁ l₂ : List α), (∀ a ∈ l₁, p a = false) →
      (l₁ ++ l₂).find? p = l₂.find? p := by
  intro l₁
  induction l₁ with
  | nil => intro l₂ _; rfl
  | cons a l ih =>
    intro l₂ h
    have ha : p a = false := h a (List.mem_cons_self a l)
    simp [List.find?, ha, ih l₂ (fun b hb => h b (List.mem_cons_of_mem a hb))]

/-- An element at an erased index is pairwise-related to every survivor. -/
theorem rel_of_get_eraseIdx {α : Type} {R : α → α → Prop} :
    ∀ (l : List α) (k : Nat) (t : α), l.Pairwise R → l.get? k = some t →
      ∀ u ∈ l.eraseIdx k, R t u ∨ R u t := by
  intro l
  induction l with
  | nil => intro k t _ hget; cases hget
  | cons a l ih =>
    intro k t hp hget u hu
    cases k with
    | zero =>
      cases hget
      exact Or.inl ((List.pairwise_cons.mp hp).1 u hu)
    | succ k =>
      rcases List.mem_cons.mp hu with rfl | hu2
      · have ht : t ∈ l := List.get?_mem hget
        exact Or.inr ((List.pairwise_cons.mp hp).1 t ht)
      · exact ih k t (List.pairwise_cons.mp hp).2 hget u hu2

/-! ### Pricing lemmas -/

/-- Every entry of the price matrix is positive. -/
theorem priceMatrixLookup_pos (m mt : String) (v : ℚ)
    (h : priceMatrixLookup m mt = some v) : 0 < v := by
  unfold priceMatrixLookup at h
  split at h <;> (try split at h) <;> cases h <;> norm_num

/-- The unit price is positive for every mesh/material combination. -/
theorem unitPrice_pos (m mt : String) : 0 < unitPrice m mt := by
  unfold unitPrice
  cases h : priceMatrixLookup m mt with
  | none => norm_num
  | some v =>
    by_cases hv : v = 0
    · simp [hv]
    · simpa [hv] using lt_of_le_of_ne (le_of_lt (priceMatrixLookup_pos m mt v h)) (Ne.symm hv)

/-- A combination absent from the table gets the default unit price 2000. -/
theorem unitPrice_default (m mt : String) (h : priceMatrixLookup m mt = none) :
    unitPrice m mt = 2000 := by
  unfold unitPrice
  rw [h]

/-! ### Phone lemmas -/

/-- A decimal digit is not a JS whitespace character. -/
theorem isJsSpace_of_isDigit (c : Char) (h : c.isDigit = true) :
    isJsSpace c = false := by
  by_contra hsp
  rw [Bool.not_eq_false] at hsp
  unfold isJsSpace at hsp
  simp only [Bool.or_eq_true, decide_eq_true_eq] at hsp
  rcases hsp with ((((rfl | rfl) | rfl) | rfl) | rfl) | rfl <;> exact absurd h (by decide)

/-- Removing JS whitespace from a list of digits and known non-space symbols
changes nothing. -/
theorem filter_space_eq_self (l : List Char)
    (h : ∀ c ∈ l, isJsSpace c = false) :
    l.filter (fun c => !(isJsSpace c)) = l :=
  List.filter_eq_self.mpr (fun c hc => by rw [h c hc]; rfl)

/-- Every phone accepted by the regex formats to `254` `7` followed by eight
digits. -/
theorem formatPhone_of_valid (s : String) (h : validPhone s = true) :
    ∃ rest : List Char, (formatPhone s).toList = '2' :: '5' :: '4' :: '7' :: rest
      ∧ rest.length = 8 ∧ ∀ c ∈ rest, c.isDigit = true := by
  unfold validPhone validPhoneChars at h
  split at h
  case _ rest heq =>
    -- international form 2547XXXXXXXX
    simp only [Bool.and_eq_true, beq_iff_eq, List.all_eq_true] at h
    obtain ⟨hlen, hdig⟩ := h
    refine ⟨rest, ?_, hlen, hdig⟩
    have hfil : ('2' :: '5' :: '4' :: '7' :: rest).filter (fun c => !(isJsSpace c))
        = '2' :: '5' :: '4' :: '7' :: rest := by
      refine filter_space_eq_self _ (fun c hc => ?_)
      simp only [List.mem_cons] at hc
      rcases hc with rfl | rfl | rfl | rfl | hm
      · decide
      · decide
      · decide
      · decide
      · exact isJsSpace_of_isDigit c (hdig c hm)
    unfold formatPhone
    rw [heq, hfil]
    rfl
  case _ rest heq =>
    -- local form 07XXXXXXXX
    simp only [Bool.and_eq_true, beq_iff_eq, List.all_eq_true] at h
    obtain ⟨hlen, hdig⟩ := h
    refine ⟨rest, ?_, hlen, hdig⟩
    have hfil : ('0' :: '7' :: rest).filter (fun c => !(isJsSpace c))
        = '0' :: '7' :: rest := by
      refine filter_space_eq_self _ (fun c hc => ?_)
      simp only [List.mem_cons] at hc
      rcases hc with rfl | rfl | hm
      · decide
      · decide
      · exact isJsSpace_of_isDigit c (hdig c hm)
    unfold formatPhone
    rw [heq, hfil]
    rfl
  case _ rest heq =>
    -- international form with plus sign +2547XXXXXXXX
    simp only [Bool.and_eq_true, beq_iff_eq, List.all_eq_true] at h
    obtain ⟨hlen, hdig⟩ := h
    refine ⟨rest, ?_, hlen, hdig⟩
    have hfil : ('+' :: '2' :: '5' :: '4' :: '7' :: rest).filter (fun c => !(isJsSpace c))
        = '+' :: '2' :: '5' :: '4' :: '7' :: rest := by
      refine filter_space_eq_self _ (fun c hc => ?_)
      simp only [List.mem_cons] at hc
      rcases hc with rfl | rfl | rfl | rfl | rfl | hm
      · decide
      · decide
      · decide
      · decide
      · decide
      · exact isJsSpace_of_isDigit c (hdig c hm)
    unfold formatPhone
    rw [heq, hfil]
    rfl
  case _ =>
    cases h

/-- The acceptance predicate described by the specification: strip whitespace
first, then accept local `07XXXXXXXX` or `01XXXXXXXX`, international
`2547XXXXXXXX`, or `+2547XXXXXXXX`.  Stated from the spec's words, for
comparison against the source's `validPhone`. -/
def specPhoneAccepts (s : String) : Bool :=
  match s.toList.filter (fun c => !(isJsSpace c)) with
  | '0' :: '7' :: rest => rest.length == 8 && rest.all Char.isDigit
  | '0' :: '1' :: rest => rest.length == 8 && rest.all Char.isDigit
  | '2' :: '5' :: '4' :: '7' :: rest => rest.length == 8 && rest.all Char.isDigit
  | '+' :: '2' :: '5' :: '4' :: '7' :: rest => rest.length == 8 && rest.all Char.isDigit
  | _ => false

/-! ### Store invariants -/

/-- Structural invariants of every reachable store: payment ids are below the
`SERIAL` counter and pairwise distinct; every pending timer belongs to exactly
one existing payment, whose `quote_id` the timer carries, which is still
`"initiated"` with no confirmation code, and whose quote row exists. -/
structure Inv (db : DB) : Prop where
  payLt : ∀ p ∈ db.payments, p.id < db.nextPaymentId
  payDistinct : db.payments.Pairwise (fun a b => a.id ≠ b.id)
  timerPay : ∀ t ∈ db.timers, ∃ p ∈ db.payments, p.id = t.paymentId ∧ p.quote_id = t.quoteId
  timerDistinct : db.timers.Pairwise (fun a b => a.paymentId ≠ b.paymentId)
  timerInit : ∀ t ∈ db.timers, ∀ p ∈ db.payments, p.id = t.paymentId →
      p.status = "initiated" ∧ p.mpesa_code = none
  timerQuote : ∀ t ∈ db.timers, ∃ q ∈ db.quotes, q.id = t.quoteId

/-- The freshly initialized store satisfies the invariants. -/
theorem inv_empty : Inv DB.empty := by
  constructor <;> simp [DB.empty]

/-- Quote submission preserves the store invariants. -/
theorem inv_submitQuote (a : Auth) (f : QuoteForm) (db : DB) (h : Inv db) :
    Inv (applyOp db (.submitQuote a f)) := by
  obtain ⟨h1, h2, h3, h4, h5, h6⟩ := h
  unfold applyOp submitQuote
  refine ⟨h1, h2, h3, h4, h5, ?_⟩
  intro t ht
  obtain ⟨q, hq, hid⟩ := h6 t ht
  exact ⟨q, List.mem_append_left _ hq, hid⟩

/-- The admin status update preserves the store invariants. -/
theorem inv_setStatus (a : Auth) (i : Nat) (s : String) (db : DB) (h : Inv db) :
    Inv (applyOp db (.setStatus a i s)) := by
  simp only [applyOp]
  rcases hres : setQuoteStatus a i s db with e | ⟨db2, q2⟩
  · exact h
  · obtain ⟨h1, h2, h3, h4, h5, h6⟩ := h
    unfold setQuoteStatus at hres
    split at hres
    · cases hres
    · split at hres
      · cases hres
      · cases hres
        refine ⟨h1, h2, h3, h4, h5, ?_⟩
        intro t ht
        obtain ⟨q, hq, hid⟩ := h6 t ht
        refine ⟨if q.id == i then { q with status := s } else q,
          List.mem_map_of_mem _ hq, ?_⟩
        have hpres : (if q.id == i then { q with status := s } else q).id = q.id := by
          by_cases hqi : q.id = i <;> simp [hqi]
        rw [hpres, hid]

/-- Payment initiation preserves the store invariants. -/
theorem inv_initiatePayment (a : Auth) (ph : String) (amt : ℚ) (qid : Nat)
    (db : DB) (h : Inv db) :
    Inv (applyOp db (.initiatePayment a ph amt qid)) := by
  simp only [applyOp]
  rcases hres : initiatePayment a ph amt qid db with e | ⟨db2, pid⟩
  · exact h
  · obtain ⟨h1, h2, h3, h4, h5, h6⟩ := h
    unfold initiatePayment at hres
    split at hres
    · cases hres
    · split at hres
      · cases hres
      · rename_i q hfind
        split at hres
        · cases hres
        · cases hres
          have hqmem : q ∈ db.quotes := List.mem_of_find?_eq_some hfind
          have hqid : q.id = qid := by simpa using List.find?_some hfind
          refine ⟨?_, ?_, ?_, ?_, ?_, ?_⟩
          · intro p hp
            rcases List.mem_append.mp hp with hp2 | hp2
            · exact Nat.lt_succ_of_lt (h1 p hp2)
            · rw [List.mem_singleton.mp hp2]
              exact Nat.lt_succ_self _
          · refine List.pairwise_append.mpr ⟨h2, List.pairwise_singleton _ _, ?_⟩
            intro p hp p2 hp2
            rw [List.mem_singleton.mp hp2]
            exact Nat.ne_of_lt (h1 p hp)
          · intro t ht
            rcases List.mem_append.mp ht with ht2 | ht2
            · obtain ⟨p, hp, hpt, hpq⟩ := h3 t ht2
              exact ⟨p, List.mem_append_left _ hp, hpt, hpq⟩
            · rw [List.mem_singleton.mp ht2]
              exact ⟨_, List.mem_append_right _ (List.mem_singleton_self _), rfl, rfl⟩
          · refine List.pairwise_append.mpr ⟨h4, List.pairwise_singleton _ _, ?_⟩
            intro t ht t2 ht2
            rw [List.mem_singleton.mp ht2]
            obtain ⟨p, hp, hpt, _⟩ := h3 t ht
            exact fun he => absurd (hpt.trans he) (Nat.ne_of_lt (h1 p hp))
          · intro t ht p hp hid
            rcases List.mem_append.mp ht with ht2 | ht2 <;>
              rcases List.mem_append.mp hp with hp2 | hp2
            · exact h5 t ht2 p hp2 hid
            · obtain ⟨p0, hp0, hpt, _⟩ := h3 t ht2
              rw [List.mem_singleton.mp hp2] at hid
              exact absurd (hpt.trans hid.symm) (Nat.ne_of_lt (h1 p0 hp0))
            · rw [List.mem_singleton.mp ht2] at hid
              exact absurd hid (Nat.ne_of_lt (h1 p hp2))
            · rw [List.mem_singleton.mp hp2]
              exact ⟨rfl, rfl⟩
          · intro t ht
            rcases List.mem_append.mp ht with ht2 | ht2
            · exact h6 t ht2
            · rw [List.mem_singleton.mp ht2]
              exact ⟨q, hqmem, hqid⟩

/-- Firing a scheduled completion callback preserves the store invariants. -/
theorem inv_fireTimer (k : Nat) (ts : String) (db : DB) (h : Inv db) :
    Inv (applyOp db (.fireTimer k ts)) := by
  simp only [applyOp]
  rcases hget : db.timers.get? k with _ | t
  · exact h
  · obtain ⟨h1, h2, h3, h4, h5, h6⟩ := h
    have herase : ∀ u ∈ db.timers.eraseIdx k, u ∈ db.timers :=
      fun u hu => (List.eraseIdx_sublist db.timers k).subset hu
    have gid : ∀ p : Payment,
        (if p.id == t.paymentId then
            { p with status := "completed", mpesa_code := some ("MPE" ++ ts) }
          else p).id = p.id := by
      intro p; by_cases hp : p.id = t.paymentId <;> simp [hp]
    have gquote : ∀ p : Payment,
        (if p.id == t.paymentId then
            { p with status := "completed", mpesa_code := some ("MPE" ++ ts) }
          else p).quote_id = p.quote_id := by
      intro p; by_cases hp : p.id = t.paymentId <;> simp [hp]
    have fid : ∀ q : Quote,
        (if q.id == t.quoteId then { q with status := "paid" } else q).id = q.id := by
      intro q; by_cases hq : q.id = t.quoteId <;> simp [hq]
    unfold fireCompletion
    refine ⟨?_, ?_, ?_, ?_, ?_, ?_⟩
    · intro p hp
      obtain ⟨p0, hp0, rfl⟩ := List.mem_map.mp hp
      rw [gid p0]
      exact h1 p0 hp0
    · exact List.pairwise_map.mpr (h2.imp (fun {a b} hab => by
        rw [gid a, gid b]; exact hab))
    · intro u hu
      obtain ⟨p0, hp0, hpt, hpq⟩ := h3 u (herase u hu)
      refine ⟨_, List.mem_map_of_mem _ hp0, ?_, ?_⟩
      · rw [gid p0]; exact hpt
      · rw [gquote p0]; exact hpq
    · exact h4.sublist (List.eraseIdx_sublist db.timers k)
    · intro u hu p hp hid
      obtain ⟨p0, hp0, rfl⟩ := List.mem_map.mp hp
      rw [gid p0] at hid
      by_cases hcase : p0.id = t.paymentId
      · exfalso
        have hne := rel_of_get_eraseIdx db.timers k t h4 hget u hu
        have : t.paymentId = u.paymentId := by rw [← hcase, hid]
        rcases hne with hne | hne <;> exact hne (by rw [this])
      · have : (if p0.id == t.paymentId then
            { p0 with status := "completed", mpesa_code := some ("MPE" ++ ts) }
          else p0) = p0 := by simp [hcase]
        rw [this]
        exact h5 u (herase u hu) p0 hp0 hid
    · intro u hu
      obtain ⟨q0, hq0, hqt⟩ := h6 u (herase u hu)
      refine ⟨_, List.mem_map_of_mem _ hq0, ?_⟩
      rw [fid q0]
      exact hqt

/-- Every reachable store satisfies the invariants. -/
theorem reachable_inv (db : DB) (h : Reachable db) : Inv db := by
  induction h with
  | init => exact inv_empty
  | step db op _ ih =>
    cases op with
    | submitQuote a f => exact inv_submitQuote a f db ih
    | setStatus a i s => exact inv_setStatus a i s db ih
    | initiatePayment a ph amt qid => exact inv_initiatePayment a ph amt qid db ih
    | fireTimer k ts => exact inv_fireTimer k ts db ih
    | getStatus a pid => exact ih

/-! ### Claim theorems: pricing and phone handling -/

/-- C1: for every quote submission with positive width and height and integer
count of at least 1, the returned total price is
`width * height * count * unitPrice(meshType, materialType)`, the unit price
falls back to 2000 for combinations absent from the table, the total is
non-negative, and the spec's example (1.2 m by 1.5 m, two windows, roller
mesh, polyester) prices at 11520. -/
theorem quote_price_ok :
    (∀ (auth : Auth) (f : QuoteForm) (db : DB),
        0 < f.windowWidth → 0 < f.windowHeight →
        (∃ n : ℕ, f.windowCount = (n : ℚ) ∧ 1 ≤ n) →
        (submitQuote auth f db).2.2
            = f.windowWidth * f.windowHeight * f.windowCount
                * unitPrice f.meshType f.materialType
          ∧ 0 ≤ (submitQuote auth f db).2.2
          ∧ (priceMatrixLookup f.meshType f.materialType = none →
              unitPrice f.meshType f.materialType = 2000))
    ∧ (submitQuote sampleUser sampleForm DB.empty).2.2 = 11520 := by
  constructor
  · intro auth f db hw hh hcnt
    refine ⟨?_, ?_, unitPrice_default _ _⟩
    · show computeTotalPrice f.windowWidth f.windowHeight f.windowCount
          f.meshType f.materialType
          = f.windowWidth * f.windowHeight * f.windowCount
              * unitPrice f.meshType f.materialType
      unfold computeTotalPrice
      ring
    · obtain ⟨n, hn, _⟩ := hcnt
      have hu := unitPrice_pos f.meshType f.materialType
      have hc : (0 : ℚ) ≤ f.windowCount := by rw [hn]; positivity
      show 0 ≤ computeTotalPrice f.windowWidth f.windowHeight f.windowCount
          f.meshType f.materialType
      unfold computeTotalPrice
      exact mul_nonneg (mul_nonneg (mul_nonneg hw.le hh.le) hu.le) hc
  · show computeTotalPrice 1.2 1.5 2 "roller" "polyester" = 11520
    unfold computeTotalPrice
    rw [show unitPrice "roller" "polyester" = 3200 from rfl]
    norm_num

/-- Closed instance of `quote_price_ok` at the spec's example form. -/
theorem quote_price_ok_witness :
    (submitQuote sampleUser sampleForm DB.empty).2.2
        = sampleForm.windowWidth * sampleForm.windowHeight * sampleForm.windowCount
            * unitPrice sampleForm.meshType sampleForm.materialType
      ∧ 0 ≤ (submitQuote sampleUser sampleForm DB.empty).2.2
      ∧ (priceMatrixLookup sampleForm.meshType sampleForm.materialType = none →
          unitPrice sampleForm.meshType sampleForm.materialType = 2000) :=
  quote_price_ok.1 sampleUser sampleForm DB.empty
    (by simp only [sampleForm]; norm_num)
    (by simp only [sampleForm]; norm_num)
    ⟨2, by simp only [sampleForm]; norm_num, by norm_num⟩

/-- C4 counterexample: the specification's acceptance predicate admits the
local form `01XXXXXXXX` after whitespace stripping, but the code's regex,
applied to the raw input, rejects `"0112345678"`. -/
theorem phone_validation_cex :
    specPhoneAccepts "0112345678" = true ∧ validPhone "0112345678" = false := by
  constructor
  · rfl
  · rfl

/-- C4 amended: validation succeeds exactly for raw inputs of one of the
forms `07XXXXXXXX`, `2547XXXXXXXX`, or `+2547XXXXXXXX` (no whitespace
stripping before validation and no `01` local form); in particular `"12345"`
and `"0112345678"` are rejected. -/
theorem phone_validation_amended :
    (∀ s : String, validPhone s = true ↔
        ((∃ rest, s.toList = '0' :: '7' :: rest
            ∧ rest.length = 8 ∧ ∀ c ∈ rest, c.isDigit = true)
          ∨ (∃ rest, s.toList = '2' :: '5' :: '4' :: '7' :: rest
              ∧ rest.length = 8 ∧ ∀ c ∈ rest, c.isDigit = true)
          ∨ (∃ rest, s.toList = '+' :: '2' :: '5' :: '4' :: '7' :: rest
              ∧ rest.length = 8 ∧ ∀ c ∈ rest, c.isDigit = true)))
    ∧ validPhone "12345" = false ∧ validPhone "0112345678" = false := by
  refine ⟨fun s => ?_, rfl, rfl⟩
  constructor
  · intro h
    unfold validPhone validPhoneChars at h
    split at h
    case _ rest heq =>
      simp only [Bool.and_eq_true, beq_iff_eq, List.all_eq_true] at h
      exact Or.inr (Or.inl ⟨rest, heq, h.1, h.2⟩)
    case _ rest heq =>
      simp only [Bool.and_eq_true, beq_iff_eq, List.all_eq_true] at h
      exact Or.inl ⟨rest, heq, h.1, h.2⟩
    case _ rest heq =>
      simp only [Bool.and_eq_true, beq_iff_eq, List.all_eq_true] at h
      exact Or.inr (Or.inr ⟨rest, heq, h.1, h.2⟩)
    case _ =>
      cases h
  · intro h
    unfold validPhone validPhoneChars
    rcases h with ⟨rest, heq, hlen, hdig⟩ | ⟨rest, heq, hlen, hdig⟩ | ⟨rest, heq, hlen, hdig⟩ <;>
      rw [heq] <;>
      simp only [Bool.and_eq_true, beq_iff_eq, List.all_eq_true] <;>
      exact ⟨hlen, hdig⟩

/-- C5: every phone input passing validation normalizes to a digits-only
string of length 12 starting with `254` (in fact `2547`), and the spec's
examples normalize as stated. -/
theorem phone_normalization_ok :
    (∀ s : String, validPhone s = true →
        (formatPhone s).toList.length = 12
        ∧ (∀ c ∈ (formatPhone s).toList, c.isDigit = true)
        ∧ (formatPhone s).toList.take 3 = ['2', '5', '4'])
    ∧ formatPhone "0712345678" = "254712345678"
    ∧ formatPhone "+254712345678" = "254712345678"
    ∧ formatPhone "254712345678" = "254712345678" := by
  refine ⟨fun s h => ?_, rfl, rfl, rfl⟩
  obtain ⟨rest, heq, hlen, hdig⟩ := formatPhone_of_valid s h
  rw [heq]
  refine ⟨by simp [hlen], fun c hc => ?_, rfl⟩
  simp only [List.mem_cons] at hc
  rcases hc with rfl | rfl | rfl | rfl | hm
  · decide
  · decide
  · decide
  · decide
  · exact hdig c hm

/-- Closed instance of `phone_normalization_ok` at the local-form example. -/
theorem phone_normalization_ok_witness :
    validPhone "0712345678" = true
    ∧ ((formatPhone "0712345678").toList.length = 12
      ∧ (∀ c ∈ (formatPhone "0712345678").toList, c.isDigit = true)
      ∧ (formatPhone "0712345678").toList.take 3 = ['2', '5', '4']) :=
  ⟨by decide, phone_normalization_ok.1 "0712345678" (by decide)⟩

/-! ### Quote-status transitions -/

/-- The quote row inserted by `sampleUser`'s submission of `sampleForm`. -/
def sampleQuote : Quote :=
  { id := 1
    user_id := sampleUser.userId
    window_width := sampleForm.windowWidth
    window_height := sampleForm.windowHeight
    window_count := sampleForm.windowCount
    mesh_type := sampleForm.meshType
    material_type := sampleForm.materialType
    total_price := computeTotalPrice sampleForm.windowWidth sampleForm.windowHeight
        sampleForm.windowCount sampleForm.meshType sampleForm.materialType
    status := "pending"
    install_location := sampleForm.installLocation }

/-- The payment row inserted by `sampleUser`'s initiation on quote 1. -/
def samplePayment : Payment :=
  { id := 1
    user_id := sampleUser.userId
    quote_id := 1
    amount := 5760
    phone := formatPhone "0712345678"
    mpesa_code := none
    status := "initiated" }

/-- Characterization of any single step that changes the status column of
quote `i` to `s`: it is the delayed completion callback (and then
`s = "paid"` and a completed payment references the quote), an admin status
update to `s`, or the insertion of a fresh quote (and then `s = "pending"`
and the id was previously unused). -/
theorem status_change_step (db : DB) (op : Op) (i : Nat) (s : String)
    (hinv : Inv db)
    (hpre : quoteStatus db i ≠ some s)
    (hpost : quoteStatus (applyOp db op) i = some s) :
    (s = "paid" ∧ ∃ k ts t, op = Op.fireTimer k ts ∧ db.timers.get? k = some t
        ∧ t.quoteId = i
        ∧ ∃ p ∈ (applyOp db op).payments, p.id = t.paymentId ∧ p.quote_id = i
            ∧ p.status = "completed")
    ∨ (∃ a, op = Op.setStatus a i s ∧ a.role = "admin")
    ∨ (s = "pending" ∧ ∃ a f, op = Op.submitQuote a f ∧ quoteStatus db i = none) := by
  cases op with
  | getStatus a pid => exact absurd hpost hpre
  | submitQuote a f =>
    right; right
    simp only [applyOp, submitQuote] at hpost
    unfold quoteStatus at hpost
    dsimp only at hpost
    rw [List.find?_append] at hpost
    cases hfind : db.quotes.find? (fun q => q.id == i) with
    | some q0 =>
      rw [hfind] at hpost
      simp only [Option.or_some, Option.map_some] at hpost
      exact absurd (by unfold quoteStatus; rw [hfind]; exact congrArg some (by simpa using hpost)) hpre
    | none =>
      rw [hfind] at hpost
      simp only [Option.none_or] at hpost
      cases hbe : (db.nextQuoteId == i) with
      | true =>
        rw [List.find?_cons_of_pos _ (by simpa using hbe)] at hpost
        replace hpost := Option.some.inj hpost
        exact ⟨hpost.symm, a, f, rfl, by unfold quoteStatus; rw [hfind]; rfl⟩
      | false =>
        rw [List.find?_cons_of_neg _ (by simpa using hbe)] at hpost
        cases hpost
  | setStatus a j s0 =>
    simp only [applyOp] at hpost
    split at hpost
    case _ db2 q2 heq =>
      unfold setQuoteStatus at heq
      split at heq
      · cases heq
      · rename_i hrole
        split at heq
        · cases heq
        · rename_i q hfind
          cases heq
          unfold quoteStatus at hpost
          dsimp only at hpost
          rw [find_map_pres (fun r => if r.id == j then { r with status := s0 } else r)
            Quote.id (fun r => by by_cases h : r.id = j <;> simp [h]) db.quotes i] at hpost
          cases hfind2 : db.quotes.find? (fun q => q.id == i) with
          | none => rw [hfind2] at hpost; cases hpost
          | some q0 =>
            rw [hfind2] at hpost
            replace hpost := Option.some.inj hpost
            by_cases hj : q0.id = j
            · have hs0 : s0 = s := by simpa [hj] using hpost
              have hqi : q0.id = i := by simpa using List.find?_some hfind2
              refine Or.inr (Or.inl ⟨a, ?_, not_ne_iff.mp hrole⟩)
              rw [hs0, hj.symm.trans hqi]
            · have hq0 : q0.status = s := by simpa [hj] using hpost
              exact absurd (by unfold quoteStatus; rw [hfind2]; exact congrArg some hq0) hpre
    case _ e heq => exact absurd hpost hpre
  | initiatePayment a ph amt qid =>
    simp only [applyOp] at hpost
    split at hpost
    case _ db2 pid heq =>
      unfold initiatePayment at heq
      split at heq
      · cases heq
      · split at heq
        · cases heq
        · split at heq
          · cases heq
          · cases heq
            exact absurd hpost hpre
    case _ e heq => exact absurd hpost hpre
  | fireTimer k ts =>
    simp only [applyOp] at hpost
    split at hpost
    case _ t hget =>
      have happly : applyOp db (Op.fireTimer k ts)
          = { fireCompletion t ts db with timers := db.timers.eraseIdx k } := by
        simp only [applyOp, hget]
      unfold quoteStatus fireCompletion at hpost
      dsimp only at hpost
      rw [find_map_pres (fun q => if q.id == t.quoteId then { q with status := "paid" } else q)
        Quote.id (fun r => by by_cases h : r.id = t.quoteId <;> simp [h]) db.quotes i] at hpost
      cases hfind2 : db.quotes.find? (fun q => q.id == i) with
      | none => rw [hfind2] at hpost; cases hpost
      | some q0 =>
        rw [hfind2] at hpost
        replace hpost := Option.some.inj hpost
        by_cases hq : q0.id = t.quoteId
        · have hs : s = "paid" := by simpa [hq] using hpost.symm
          have hqi : q0.id = i := by simpa using List.find?_some hfind2
          obtain ⟨p0, hp0, hpt, hpq⟩ := hinv.timerPay t (List.get?_mem hget)
          refine Or.inl ⟨hs, k, ts, t, rfl, hget, hq.symm.trans hqi, ?_⟩
          rw [happly]
          refine ⟨if p0.id == t.paymentId then
              { p0 with status := "completed", mpesa_code := some ("MPE" ++ ts) }
            else p0, List.mem_map_of_mem _ hp0, ?_, ?_, ?_⟩
          · simp [hpt]
          · simp [hpt, hpq, hq.symm.trans hqi]
          · simp [hpt]
        · have hq0 : q0.status = s := by simpa [hq] using hpost
          exact absurd (by unfold quoteStatus; rw [hfind2]; exact congrArg some hq0) hpre
    case _ hget => exact absurd hpost hpre

/-- C2: a quote's status becomes `"paid"` only through the delayed completion
step of a payment referencing that quote, or through an explicit admin status
update; no other operation performs this transition. -/
theorem quote_paid_only_via_completion_or_admin (db : DB) (op : Op) (i : Nat)
    (hr : Reachable db)
    (hpre : quoteStatus db i ≠ some "paid")
    (hpost : quoteStatus (applyOp db op) i = some "paid") :
    (∃ k ts t, op = Op.fireTimer k ts ∧ db.timers.get? k = some t ∧ t.quoteId = i
      ∧ ∃ p ∈ (applyOp db op).payments, p.id = t.paymentId ∧ p.quote_id = i
          ∧ p.status = "completed")
    ∨ (∃ a, op = Op.setStatus a i "paid" ∧ a.role = "admin") := by
  rcases status_change_step db op i "paid" (reachable_inv db hr) hpre hpost with
    ⟨_, h⟩ | h | ⟨hs, _⟩
  · exact Or.inl h
  · exact Or.inr h
  · exact absurd hs (by decide)

/-- Closed instance of `quote_paid_only_via_completion_or_admin`: the admin
update that pays quote 1 of the one-quote store is classified as an admin
transition. -/
theorem quote_paid_only_via_completion_or_admin_witness :
    (∃ k ts t, Op.setStatus sampleAdmin 1 "paid" = Op.fireTimer k ts
      ∧ dbOneQuote.timers.get? k = some t ∧ t.quoteId = 1
      ∧ ∃ p ∈ (applyOp dbOneQuote (Op.setStatus sampleAdmin 1 "paid")).payments,
          p.id = t.paymentId ∧ p.quote_id = 1 ∧ p.status = "completed")
    ∨ (∃ a, Op.setStatus sampleAdmin 1 "paid" = Op.setStatus a 1 "paid"
        ∧ a.role = "admin") :=
  quote_paid_only_via_completion_or_admin dbOneQuote (Op.setStatus sampleAdmin 1 "paid") 1
    (Reachable.step DB.empty (Op.submitQuote sampleUser sampleForm) Reachable.init)
    (by decide) (by decide)

/-- Store in which quote 1 was moved to `"completed"` by the admin while the
completion callback of payment 1 is still pending. -/
def dbCompleted : DB := applyOp dbOnePayment (.setStatus sampleAdmin 1 "completed")

/-- C6 counterexample: in a reachable store, the delayed completion step
moves quote 1 from `"completed"` — a state that is neither `"pending"` nor
`"confirmed"` — to `"paid"`; the callback performs no status check at all. -/
theorem completion_from_completed_cex :
    Reachable dbCompleted
    ∧ quoteStatus dbCompleted 1 = some "completed"
    ∧ ("completed" ≠ "pending" ∧ "completed" ≠ "confirmed")
    ∧ quoteStatus (applyOp dbCompleted (.fireTimer 0 "1700")) 1 = some "paid" :=
  ⟨Reachable.step dbOnePayment (Op.setStatus sampleAdmin 1 "completed")
      (Reachable.step dbOneQuote (Op.initiatePayment sampleUser "0712345678" 5760 1)
        (Reachable.step DB.empty (Op.submitQuote sampleUser sampleForm) Reachable.init)),
    by decide, ⟨by decide, by decide⟩, by decide⟩

/-- C6 amended: the delayed completion step moves the linked quote to
`"paid"` from any prior status (not only pending or confirmed), and admin
action can move a quote to any status directly. -/
theorem completion_any_status_admin_any (db : DB) (k : Nat) (t : TimerTask)
    (ts : String)
    (hget : db.timers.get? k = some t)
    (hq : ∃ q ∈ db.quotes, q.id = t.quoteId) :
    quoteStatus (applyOp db (.fireTimer k ts)) t.quoteId = some "paid"
    ∧ (∀ (a : Auth) (i : Nat) (s : String), a.role = "admin" →
        (∃ q0 ∈ db.quotes, q0.id = i) →
        quoteStatus (applyOp db (.setStatus a i s)) i = some s) := by
  constructor
  · have happly : applyOp db (Op.fireTimer k ts)
        = { fireCompletion t ts db with timers := db.timers.eraseIdx k } := by
      simp only [applyOp, hget]
    rw [happly]
    unfold quoteStatus fireCompletion
    dsimp only
    rw [find_map_pres (fun q => if q.id == t.quoteId then { q with status := "paid" } else q)
      Quote.id (fun r => by by_cases h : r.id = t.quoteId <;> simp [h]) db.quotes t.quoteId]
    obtain ⟨q, hqm, hqid⟩ := hq
    have hsome : (db.quotes.find? (fun r => r.id == t.quoteId)).isSome :=
      List.find?_isSome.mpr ⟨q, hqm, by simp [hqid]⟩
    obtain ⟨q0, hfind0⟩ := Option.isSome_iff_exists.mp hsome
    rw [hfind0]
    have hq0 : q0.id = t.quoteId := by simpa using List.find?_some hfind0
    simp [hq0]
  · intro a i s hrole hex
    obtain ⟨q, hqm, hqid⟩ := hex
    have hsome : (db.quotes.find? (fun r => r.id == i)).isSome :=
      List.find?_isSome.mpr ⟨q, hqm, by simp [hqid]⟩
    obtain ⟨q0, hfind0⟩ := Option.isSome_iff_exists.mp hsome
    have happly2 : applyOp db (Op.setStatus a i s)
        = { db with quotes :=
            db.quotes.map (fun r => if r.id == i then { r with status := s } else r) } := by
      simp [applyOp, setQuoteStatus, hrole, hfind0]
    rw [happly2]
    unfold quoteStatus
    dsimp only
    rw [find_map_pres (fun r => if r.id == i then { r with status := s } else r)
      Quote.id (fun r => by by_cases h : r.id = i <;> simp [h]) db.quotes i]
    rw [hfind0]
    have hq0 : q0.id = i := by simpa using List.find?_some hfind0
    simp [hq0]

/-- Closed instance of `completion_any_status_admin_any` on the one-payment
store. -/
theorem completion_any_status_admin_any_witness :
    quoteStatus (applyOp dbOnePayment (.fireTimer 0 "1700")) 1 = some "paid"
    ∧ quoteStatus (applyOp dbOnePayment (.setStatus sampleAdmin 1 "confirmed")) 1
        = some "confirmed" :=
  ⟨(completion_any_status_admin_any dbOnePayment 0 ⟨1, 1⟩ "1700" rfl
      ⟨sampleQuote, List.mem_singleton_self sampleQuote, rfl⟩).1,
    (completion_any_status_admin_any dbOnePayment 0 ⟨1, 1⟩ "1700" rfl
      ⟨sampleQuote, List.mem_singleton_self sampleQuote, rfl⟩).2
      sampleAdmin 1 "confirmed" rfl
      ⟨sampleQuote, List.mem_singleton_self sampleQuote, rfl⟩⟩

/-- C3: once the delayed completion step of a payment has fired, the owner's
status query returns `"completed"` with the non-empty confirmation code, and
the linked quote's status is `"paid"`.  The two updates are performed by the
single `fireTimer` transition — the transaction of the callback — so an
observer sees either both changes or neither. -/
theorem payment_completion_ok (db : DB) (k : Nat) (t : TimerTask) (ts : String)
    (auth : Auth) (p : Payment)
    (hr : Reachable db)
    (hget : db.timers.get? k = some t)
    (hp : p ∈ db.payments) (hpid : p.id = t.paymentId)
    (hauth : auth.userId = p.user_id) :
    getPaymentStatus auth t.paymentId (applyOp db (.fireTimer k ts))
        = .ok ⟨"completed", some ("MPE" ++ ts), p.amount⟩
    ∧ ("MPE" ++ ts : String) ≠ ""
    ∧ quoteStatus (applyOp db (.fireTimer k ts)) t.quoteId = some "paid" := by
  have hinv := reachable_inv db hr
  have happly : applyOp db (Op.fireTimer k ts)
      = { fireCompletion t ts db with timers := db.timers.eraseIdx k } := by
    simp only [applyOp, hget]
  refine ⟨?_, ?_, ?_⟩
  · rw [happly]
    unfold getPaymentStatus fireCompletion
    dsimp only
    rw [← hpid]
    rw [find_map_pres (fun p2 => if p2.id == p.id then
        { p2 with status := "completed", mpesa_code := some ("MPE" ++ ts) } else p2)
      Payment.id (fun r => by by_cases h : r.id = p.id <;> simp [h]) db.payments p.id]
    rw [find_eq_of_mem_of_distinct Payment.id db.payments hinv.payDistinct p hp]
    rw [Option.map_some']
    simp [hauth.symm]
  · intro hcon
    have hlen := congrArg String.length hcon
    rw [String.length_append] at hlen
    rw [show ("MPE" : String).length = 3 from rfl, show ("" : String).length = 0 from rfl] at hlen
    omega
  · exact (completion_any_status_admin_any db k t ts hget
      (hinv.timerQuote t (List.get?_mem hget))).1

/-- Closed instance of `payment_completion_ok` on the one-payment store. -/
theorem payment_completion_ok_witness :
    getPaymentStatus sampleUser 1 (applyOp dbOnePayment (Op.fireTimer 0 "1700"))
        = .ok ⟨"completed", some ("MPE" ++ "1700"), samplePayment.amount⟩
    ∧ ("MPE" ++ "1700" : String) ≠ ""
    ∧ quoteStatus (applyOp dbOnePayment (Op.fireTimer 0 "1700")) 1 = some "paid" :=
  payment_completion_ok dbOnePayment 0 ⟨1, 1⟩ "1700" sampleUser samplePayment
    (Reachable.step dbOneQuote (Op.initiatePayment sampleUser "0712345678" 5760 1)
      (Reachable.step DB.empty (Op.submitQuote sampleUser sampleForm) Reachable.init))
    rfl (List.mem_singleton_self samplePayment) rfl rfl

/-- C7 counterexample: a non-admin caller targeting an existing quote they do
not own, but supplying the invalid phone `"12345"`, is rejected with
InvalidPhone — not Forbidden — because the phone check runs first. -/
theorem payment_foreign_quote_cex :
    Reachable dbOneQuote
    ∧ (∃ q ∈ dbOneQuote.quotes, q.id = 1 ∧ q.user_id ≠ otherUser.userId)
    ∧ otherUser.role ≠ "admin"
    ∧ initiatePayment otherUser "12345" 100 1 dbOneQuote = .error .invalidPhone
    ∧ ApiError.invalidPhone ≠ ApiError.forbidden :=
  ⟨Reachable.step DB.empty (Op.submitQuote sampleUser sampleForm) Reachable.init,
    ⟨sampleQuote, List.mem_singleton_self sampleQuote, rfl, by decide⟩,
    by decide, by decide, by decide⟩

/-- C7 amended: with a phone that passes validation, a payment initiation by
an authenticated non-admin caller on an existing quote not owned by the
caller is rejected with Forbidden and leaves the store unchanged (no payment
row is created); an invalid phone is instead rejected earlier with
InvalidPhone, also without mutation. -/
theorem payment_foreign_quote_forbidden (auth : Auth) (phone : String)
    (amt : ℚ) (qid : Nat) (db : DB) (q : Quote)
    (hphone : validPhone phone = true)
    (hfind : db.quotes.find? (fun r => r.id == qid) = some q)
    (hown : q.user_id ≠ auth.userId)
    (hrole : auth.role ≠ "admin") :
    initiatePayment auth phone amt qid db = .error .forbidden
    ∧ applyOp db (.initiatePayment auth phone amt qid) = db := by
  have hres : initiatePayment auth phone amt qid db = .error .forbidden := by
    simp [initiatePayment, hphone, hfind, hown, hrole]
  exact ⟨hres, by simp [applyOp, hres]⟩

/-- Closed instance of `payment_foreign_quote_forbidden`: `otherUser` with a
valid phone on `sampleUser`'s quote. -/
theorem payment_foreign_quote_forbidden_witness :
    validPhone "0712345678" = true
    ∧ initiatePayment otherUser "0712345678" 100 1 dbOneQuote = .error .forbidden
    ∧ applyOp dbOneQuote (.initiatePayment otherUser "0712345678" 100 1) = dbOneQuote :=
  ⟨by decide,
    (payment_foreign_quote_forbidden otherUser "0712345678" 100 1 dbOneQuote sampleQuote
      (by decide) rfl (by decide) (by decide)).1,
    (payment_foreign_quote_forbidden otherUser "0712345678" 100 1 dbOneQuote sampleQuote
      (by decide) rfl (by decide) (by decide)).2⟩

/-- C8: while the completion callback of a payment is still pending, the
owner's status query succeeds and reports `"initiated"`, with no confirmation
code, rather than an error. -/
theorem payment_status_initiated_before_completion (db : DB) (t : TimerTask)
    (p : Payment) (auth : Auth)
    (hr : Reachable db)
    (ht : t ∈ db.timers)
    (hp : p ∈ db.payments) (hpid : p.id = t.paymentId)
    (hauth : auth.userId = p.user_id) :
    getPaymentStatus auth t.paymentId db = .ok ⟨"initiated", none, p.amount⟩ := by
  have hinv := reachable_inv db hr
  obtain ⟨hstat, hcode⟩ := hinv.timerInit t ht p hp hpid
  unfold getPaymentStatus
  rw [← hpid, find_eq_of_mem_of_distinct Payment.id db.payments hinv.payDistinct p hp]
  simp [hauth.symm, hstat, hcode]

/-- Closed instance of `payment_status_initiated_before_completion` on the
one-payment store. -/
theorem payment_status_initiated_before_completion_witness :
    getPaymentStatus sampleUser 1 dbOnePayment
      = .ok ⟨"initiated", none, samplePayment.amount⟩ :=
  payment_status_initiated_before_completion dbOnePayment ⟨1, 1⟩ samplePayment sampleUser
    (Reachable.step dbOneQuote (Op.initiatePayment sampleUser "0712345678" 5760 1)
      (Reachable.step DB.empty (Op.submitQuote sampleUser sampleForm) Reachable.init))
    (List.mem_singleton_self (⟨1, 1⟩ : TimerTask)) (List.mem_singleton_self samplePayment) rfl rfl

/-- C9: a created payment records the initiating caller — `req.user.userId` —
as its owning user, not the owner of the linked quote; consequently any
non-admin caller other than the initiator, in particular the quote's owner
after an admin-initiated payment, is denied the status query. -/
theorem payment_records_initiator (auth : Auth) (phone : String) (amt : ℚ)
    (qid : Nat) (db db2 : DB) (pid : Nat)
    (hr : Reachable db)
    (hres : initiatePayment auth phone amt qid db = .ok (db2, pid)) :
    (∃ p ∈ db2.payments, p.id = pid ∧ p.user_id = auth.userId)
    ∧ (∀ auth2 : Auth, auth2.userId ≠ auth.userId → auth2.role ≠ "admin" →
        getPaymentStatus auth2 pid db2 = .error .forbidden) := by
  have hinv := reachable_inv db hr
  unfold initiatePayment at hres
  split at hres
  · cases hres
  · split at hres
    · cases hres
    · rename_i q hfind
      split at hres
      · cases hres
      · cases hres
        constructor
        · exact ⟨_, List.mem_append_right _ (List.mem_singleton_self _), rfl, rfl⟩
        · intro auth2 hne hrole2
          unfold getPaymentStatus
          dsimp only
          rw [find_append_skip _ db.payments _ (fun p2 hp2 => by
            simpa using Nat.ne_of_lt (hinv.payLt p2 hp2))]
          rw [List.find?_cons_of_pos _ (by simp)]
          simp [Ne.symm hne, hrole2]

/-- Store after the admin initiates a payment of 5760 on `sampleUser`'s
quote 1. -/
def dbAdminPay : DB := applyOp dbOneQuote (.initiatePayment sampleAdmin "0712345678" 5760 1)

/-- Closed instance of `payment_records_initiator`: the admin initiates on
`sampleUser`'s quote, and `sampleUser` is then denied the status query. -/
theorem payment_records_initiator_witness :
    (∃ p ∈ dbAdminPay.payments, p.id = 1 ∧ p.user_id = sampleAdmin.userId)
    ∧ getPaymentStatus sampleUser 1 dbAdminPay = .error .forbidden :=
  ⟨(payment_records_initiator sampleAdmin "0712345678" 5760 1 dbOneQuote dbAdminPay 1
      (Reachable.step DB.empty (Op.submitQuote sampleUser sampleForm) Reachable.init) rfl).1,
    (payment_records_initiator sampleAdmin "0712345678" 5760 1 dbOneQuote dbAdminPay 1
      (Reachable.step DB.empty (Op.submitQuote sampleUser sampleForm) Reachable.init) rfl).2
      sampleUser (by decide) (by decide)⟩

/-- C10: payment initiation never compares the requested amount with the
quote's total price: every rational amount — zero, negative, or different
from the total — is recorded verbatim in the created payment, the completion
callback is scheduled, and firing it still marks the quote `"paid"`. -/
theorem payment_amount_unchecked (auth : Auth) (phone : String) (amt : ℚ)
    (qid : Nat) (ts : String) (db : DB) (q : Quote)
    (hphone : validPhone phone = true)
    (hfind : db.quotes.find? (fun r => r.id == qid) = some q)
    (hown : q.user_id = auth.userId) :
    ∃ db2 : DB,
      initiatePayment auth phone amt qid db = .ok (db2, db.nextPaymentId)
      ∧ (∃ p : Payment, db2.payments = db.payments ++ [p] ∧ p.amount = amt
          ∧ p.quote_id = qid ∧ p.status = "initiated")
      ∧ db2.timers = db.timers ++ [⟨db.nextPaymentId, qid⟩]
      ∧ quoteStatus (fireCompletion ⟨db.nextPaymentId, qid⟩ ts db2) qid = some "paid" := by
  have hres : initiatePayment auth phone amt qid db
      = .ok ({ db with
          payments := db.payments
            ++ [⟨db.nextPaymentId, auth.userId, qid, amt, formatPhone phone, none, "initiated"⟩]
          timers := db.timers ++ [⟨db.nextPaymentId, qid⟩]
          nextPaymentId := db.nextPaymentId + 1 }, db.nextPaymentId) := by
    simp [initiatePayment, hphone, hfind, hown]
  refine ⟨_, hres, ⟨_, rfl, rfl, rfl, rfl⟩, rfl, ?_⟩
  unfold quoteStatus fireCompletion
  dsimp only
  rw [find_map_pres (fun r => if r.id == qid then { r with status := "paid" } else r)
    Quote.id (fun r => by by_cases h : r.id = qid <;> simp [h]) db.quotes qid]
  rw [hfind]
  have hqid : q.id = qid := by simpa using List.find?_some hfind
  simp [hqid]

/-- Closed instance of `payment_amount_unchecked` with a negative amount on
the one-quote store. -/
theorem payment_amount_unchecked_witness :
    ∃ db2 : DB,
      initiatePayment sampleUser "0712345678" (-5) 1 dbOneQuote
          = .ok (db2, dbOneQuote.nextPaymentId)
      ∧ (∃ p : Payment, db2.payments = dbOneQuote.payments ++ [p] ∧ p.amount = -5
          ∧ p.quote_id = 1 ∧ p.status = "initiated")
      ∧ db2.timers = dbOneQuote.timers ++ [⟨dbOneQuote.nextPaymentId, 1⟩]
      ∧ quoteStatus (fireCompletion ⟨dbOneQuote.nextPaymentId, 1⟩ "1700" db2) 1
          = some "paid" :=
  payment_amount_unchecked sampleUser "0712345678" (-5) 1 "1700" dbOneQuote sampleQuote
    (by decide) rfl rfl

end Polyhomes
